import Mathlib

/-!
Verification of the expression-tree model and canonical printer of the
typst syntax core (`src/syntax/expr.rs`, `src/syntax/mod.rs`).

The Rust enums and structs are embedded as Lean inductives; the `Pretty`
implementations become pure `String`-valued functions.  Types whose source
files are not part of the repository snapshot (`Span`, `Ident`, `Token`,
`Node`, the `Printer`, the geometry units, `RgbaColor` and the external
`ryu` float formatter) are modelled from the specification; each such
definition says so in its doc comment.
-/

set_option maxHeartbeats 1000000

namespace Typst

/-- Modelled from the spec: a source span, a half-open byte range into the
original text, used only for diagnostics (`span.rs` is not in the snapshot). -/
structure Span where
  start : Nat
  stop : Nat
deriving DecidableEq, Repr

/-- Modelled from the spec: an identifier, printed verbatim (`ident.rs` is
not in the snapshot).  It carries a source span like every node. -/
structure Ident where
  span : Span
  string : String
deriving DecidableEq, Repr

/-- Modelled from the spec: a 64-bit IEEE-754 floating point number,
represented abstractly by its bit pattern.  The claims under verification
do not depend on float arithmetic or on the exact decimal rendering. -/
structure F64 where
  bits : Nat
deriving DecidableEq, Repr

/-- Modelled from the spec: an RGBA color with one byte per channel
(`color.rs` is not in the snapshot). -/
structure RgbaColor where
  r : Nat
  g : Nat
  b : Nat
  a : Nat
deriving DecidableEq, Repr

/-- Modelled from the spec: the length units, displayed as `pt`, `mm`,
`cm`, `in` (the `geom` module is not in the snapshot). -/
inductive LengthUnit where
  | pt
  | mm
  | cm
  | inch
deriving DecidableEq, Repr

/-- Modelled from the spec: the display suffix of a length unit. -/
def LengthUnit.display : LengthUnit → String
  | .pt => "pt"
  | .mm => "mm"
  | .cm => "cm"
  | .inch => "in"

/-- Modelled from the spec: the angular units, displayed as `deg`, `rad`. -/
inductive AngularUnit where
  | deg
  | rad
deriving DecidableEq, Repr

/-- Modelled from the spec: the display suffix of an angular unit. -/
def AngularUnit.display : AngularUnit → String
  | .deg => "deg"
  | .rad => "rad"

/-- A kind of literal (`LitKind` in `expr.rs`). -/
inductive LitKind where
  | none
  | bool (v : Bool)
  | int (v : Int)
  | float (v : F64)
  | length (v : F64) (u : LengthUnit)
  | angle (v : F64) (u : AngularUnit)
  | percent (v : F64)
  | color (v : RgbaColor)
  | str (v : String)
deriving DecidableEq, Repr

/-- A literal (`Lit` in `expr.rs`): a span and a kind. -/
structure Lit where
  span : Span
  kind : LitKind
deriving DecidableEq, Repr

/-- Modelled from the spec: the token kinds relevant to the operator
lookups (`token.rs` is not in the snapshot).  The seventeen binary operator
tokens and `not` are named; `other` stands for every remaining token kind
of the lexer, none of which matches an arm of `from_token`. -/
inductive Token where
  | plus
  | hyph
  | star
  | slash
  | and
  | or
  | eqEq
  | bangEq
  | lt
  | ltEq
  | gt
  | gtEq
  | eq
  | plusEq
  | hyphEq
  | starEq
  | slashEq
  | not
  | other
deriving DecidableEq, Repr, Fintype

/-- A unary operator (`UnOp` in `expr.rs`). -/
inductive UnOp where
  | pos
  | neg
  | not
deriving DecidableEq, Repr, Fintype

/-- Conversion of a token into a unary operation (`UnOp::from_token`). -/
def UnOp.fromToken : Token → Option UnOp
  | .plus => some .pos
  | .hyph => some .neg
  | .not => some .not
  | _ => Option.none

/-- Precedence of a unary operator (`UnOp::precedence`). -/
def UnOp.precedence : UnOp → Nat
  | .pos | .neg => 8
  | .not => 4

/-- String representation of a unary operator (`UnOp::as_str`). -/
def UnOp.asStr : UnOp → String
  | .pos => "+"
  | .neg => "-"
  | .not => "not"

/-- A binary operator (`BinOp` in `expr.rs`). -/
inductive BinOp where
  | add
  | sub
  | mul
  | div
  | and
  | or
  | eq
  | neq
  | lt
  | leq
  | gt
  | geq
  | assign
  | addAssign
  | subAssign
  | mulAssign
  | divAssign
deriving DecidableEq, Repr, Fintype

/-- Conversion of a token into a binary operation (`BinOp::from_token`). -/
def BinOp.fromToken : Token → Option BinOp
  | .plus => some .add
  | .hyph => some .sub
  | .star => some .mul
  | .slash => some .div
  | .and => some .and
  | .or => some .or
  | .eqEq => some .eq
  | .bangEq => some .neq
  | .lt => some .lt
  | .ltEq => some .leq
  | .gt => some .gt
  | .gtEq => some .geq
  | .eq => some .assign
  | .plusEq => some .addAssign
  | .hyphEq => some .subAssign
  | .starEq => some .mulAssign
  | .slashEq => some .divAssign
  | _ => Option.none

/-- Precedence of a binary operator (`BinOp::precedence`). -/
def BinOp.precedence : BinOp → Nat
  | .mul | .div => 7
  | .add | .sub => 6
  | .eq | .neq | .lt | .leq | .gt | .geq => 5
  | .and => 3
  | .or => 2
  | .assign | .addAssign | .subAssign | .mulAssign | .divAssign => 1

/-- The associativity of a binary operator (`Associativity` in `expr.rs`). -/
inductive Associativity where
  | left
  | right
deriving DecidableEq, Repr

/-- Associativity of a binary operator (`BinOp::associativity`). -/
def BinOp.associativity : BinOp → Associativity
  | .add | .sub | .mul | .div | .and | .or
  | .eq | .neq | .lt | .leq | .gt | .geq => .left
  | .assign | .addAssign | .subAssign | .mulAssign | .divAssign => .right

/-- String representation of a binary operator (`BinOp::as_str`). -/
def BinOp.asStr : BinOp → String
  | .add => "+"
  | .sub => "-"
  | .mul => "*"
  | .div => "/"
  | .and => "and"
  | .or => "or"
  | .eq => "=="
  | .neq => "!="
  | .lt => "<"
  | .leq => "<="
  | .gt => ">"
  | .geq => ">="
  | .assign => "="
  | .addAssign => "+="
  | .subAssign => "-="
  | .mulAssign => "*="
  | .divAssign => "/="

/-- The token that the lexer produces for a binary operator's spelling;
the inverse direction of `BinOp.fromToken`. -/
def BinOp.token : BinOp → Token
  | .add => .plus
  | .sub => .hyph
  | .mul => .star
  | .div => .slash
  | .and => .and
  | .or => .or
  | .eq => .eqEq
  | .neq => .bangEq
  | .lt => .lt
  | .leq => .ltEq
  | .gt => .gt
  | .geq => .gtEq
  | .assign => .eq
  | .addAssign => .plusEq
  | .subAssign => .hyphEq
  | .mulAssign => .starEq
  | .divAssign => .slashEq

/-- A pattern in a for loop (`ForPattern` in `expr.rs`). -/
inductive ForPattern where
  | value (v : Ident)
  | keyValue (k : Ident) (v : Ident)
deriving DecidableEq, Repr

mutual

/-- An expression (`Expr` in `expr.rs`): a tagged variant over literal,
identifier, array, dictionary, template, group, block, unary operation,
binary operation, call, let binding, if and for. -/
inductive Expr where
  | lit (v : Lit)
  | ident (v : Ident)
  | array (v : ExprArray)
  | dict (v : ExprDict)
  | template (v : ExprTemplate)
  | group (v : ExprGroup)
  | block (v : ExprBlock)
  | unary (v : ExprUnary)
  | binary (v : ExprBinary)
  | call (v : ExprCall)
  | letE (v : ExprLet)
  | ifE (v : ExprIf)
  | forE (v : ExprFor)

/-- An array expression (`ExprArray`): a span and the entries. -/
inductive ExprArray where
  | mk (span : Span) (items : List Expr)

/-- A dictionary expression (`ExprDict`): a span and the named entries. -/
inductive ExprDict where
  | mk (span : Span) (items : List Named)

/-- A pair of a name and an expression (`Named`). -/
inductive Named where
  | mk (name : Ident) (expr : Expr)

/-- A template expression (`ExprTemplate`): a span and the contained tree.
The Rust type holds the tree behind a shared `Rc` handle; the handle is
immutable after construction, so it is embedded as the tree itself. -/
inductive ExprTemplate where
  | mk (span : Span) (tree : List Node)

/-- A grouped expression (`ExprGroup`): a span and the wrapped expression. -/
inductive ExprGroup where
  | mk (span : Span) (expr : Expr)

/-- A block expression (`ExprBlock`): a span, the contained expressions and
the scoping flag. -/
inductive ExprBlock where
  | mk (span : Span) (exprs : List Expr) (scoping : Bool)

/-- A unary operation (`ExprUnary`). -/
inductive ExprUnary where
  | mk (span : Span) (op : UnOp) (expr : Expr)

/-- A binary operation (`ExprBinary`). -/
inductive ExprBinary where
  | mk (span : Span) (lhs : Expr) (op : BinOp) (rhs : Expr)

/-- An invocation of a function (`ExprCall`): callee and arguments. -/
inductive ExprCall where
  | mk (span : Span) (callee : Expr) (args : ExprArgs)

/-- The arguments to a function (`ExprArgs`). -/
inductive ExprArgs where
  | mk (span : Span) (items : List Argument)

/-- An argument to a function call (`Argument`): positional or named. -/
inductive Argument where
  | pos (expr : Expr)
  | named (n : Named)

/-- A let expression (`ExprLet`): binding and optional initializer. -/
inductive ExprLet where
  | mk (span : Span) (binding : Ident) (init : Option Expr)

/-- An if expression (`ExprIf`): condition, if body, optional else body. -/
inductive ExprIf where
  | mk (span : Span) (condition : Expr) (ifBody : Expr) (elseBody : Option Expr)

/-- A for expression (`ExprFor`): pattern, iterable and body. -/
inductive ExprFor where
  | mk (span : Span) (pattern : ForPattern) (iter : Expr) (body : Expr)

/-- Modelled from the spec: a node of the markup tree (`node.rs` is not in
the snapshot).  The markup-only node kinds (text, spaces, headings, raw
blocks and the like) are out of scope for this core and are represented by
`text`, a node printed verbatim; `expr` embeds an expression. -/
inductive Node where
  | text (s : String)
  | expr (e : Expr)

end

/-- The abstract syntax tree (`Tree` in `mod.rs`): an ordered sequence of
top-level nodes. -/
abbrev Tree := List Node

/-- Modelled from the spec: `Printer::join` of `pretty.rs` (not in the
snapshot) writes each rendered item with the joiner between consecutive
items. -/
def joinSep (sep : String) : List String → String
  | [] => ""
  | [x] => x
  | x :: xs => x ++ sep ++ joinSep sep xs

/-- Modelled from the spec: string literals are printed re-escaping only
the double quote and the backslash; every other character verbatim. -/
def escapeChar (c : Char) : String :=
  if c = '\"' then "\\\""
  else if c = '\\' then "\\\\"
  else String.singleton c

/-- Modelled from the spec: the canonical form of a string literal, the
escaped text between double quotes. -/
def prettyStrLit (s : String) : String :=
  "\"" ++ String.join (s.data.map escapeChar) ++ "\""

/-- Hexadecimal digit for a value below sixteen, lowercase. -/
def hexDigitChar (n : Nat) : Char :=
  if n < 10 then Char.ofNat (48 + n) else Char.ofNat (87 + n)

/-- Two lowercase hexadecimal digits of a byte. -/
def byteHex (n : Nat) : String :=
  String.mk [hexDigitChar (n / 16 % 16), hexDigitChar (n % 16)]

/-- Modelled from the spec: a color literal prints as a fixed six-digit
hexadecimal form with two digits per channel. -/
def RgbaColor.pretty (c : RgbaColor) : String :=
  "#" ++ byteHex c.r ++ byteHex c.g ++ byteHex c.b

/-- Modelled from the spec: an identifier prints verbatim (`ident.rs` is
not in the snapshot). -/
def Ident.pretty (i : Ident) : String :=
  i.string

/-- Printing of a literal kind (`impl Pretty for LitKind`).  The external
`ryu` crate's shortest-roundtrip decimal formatter is not part of the
repository, so it is passed as the parameter `ryu`. -/
def LitKind.pretty (ryu : F64 → String) : LitKind → String
  | .none => "none"
  | .bool v => if v then "true" else "false"
  | .int v => toString v
  | .float v => ryu v
  | .length v u => ryu v ++ u.display
  | .angle v u => ryu v ++ u.display
  | .percent v => ryu v ++ "%"
  | .color v => v.pretty
  | .str v => prettyStrLit v

/-- Printing of a literal (`impl Pretty for Lit`): only the kind is
printed, the span is ignored. -/
def Lit.pretty (ryu : F64 → String) (l : Lit) : String :=
  LitKind.pretty ryu l.kind

/-- Printing of a for-loop pattern (`impl Pretty for ForPattern`). -/
def ForPattern.pretty : ForPattern → String
  | .value v => Ident.pretty v
  | .keyValue k v => Ident.pretty k ++ ", " ++ Ident.pretty v

/-- Helper for the inlined `write_args` closure of
`ExprCall::pretty_bracketed`: given the rendered arguments, a space and
the comma-joined list when there is at least one argument, nothing
otherwise. -/
def spacedArgs (rendered : List String) : String :=
  if rendered.isEmpty then "" else " " ++ joinSep ", " rendered

/-- Size of the last element of a list is below the size of the list. -/
theorem sizeOf_lt_of_getLast? [SizeOf α] :
    ∀ {l : List α} {a : α}, l.getLast? = some a → sizeOf a < sizeOf l := by
  intro l
  induction l with
  | nil => intro a h; simp at h
  | cons x xs ih =>
    intro a h
    cases xs with
    | nil =>
      simp [List.getLast?] at h
      subst h
      simp
      omega
    | cons y ys =>
      rw [List.getLast?_cons_cons] at h
      have hlt := ih h
      simp only [List.cons.sizeOf_spec] at hlt ⊢
      omega

/-- Dropping the last element does not increase the size of a list. -/
theorem sizeOf_dropLast_le [SizeOf α] : ∀ l : List α, sizeOf l.dropLast ≤ sizeOf l := by
  intro l
  induction l with
  | nil => simp
  | cons x xs ih =>
    cases xs with
    | nil => simp [List.dropLast]
    | cons y ys =>
      have hstep : (x :: y :: ys).dropLast = x :: (y :: ys).dropLast := rfl
      rw [hstep]
      simp only [List.cons.sizeOf_spec]
      simp only [List.cons.sizeOf_spec] at ih
      omega

mutual

/-- Printing of an expression (`impl Pretty for Expr`): dispatch on the
variant. -/
def Expr.pretty (ryu : F64 → String) : Expr → String
  | .lit v => Lit.pretty ryu v
  | .ident v => Ident.pretty v
  | .array v => ExprArray.pretty ryu v
  | .dict v => ExprDict.pretty ryu v
  | .template v => ExprTemplate.pretty ryu v
  | .group v => ExprGroup.pretty ryu v
  | .block v => ExprBlock.pretty ryu v
  | .unary v => ExprUnary.pretty ryu v
  | .binary v => ExprBinary.pretty ryu v
  | .call v => ExprCall.pretty ryu v
  | .letE v => ExprLet.pretty ryu v
  | .ifE v => ExprIf.pretty ryu v
  | .forE v => ExprFor.pretty ryu v
termination_by e => sizeOf e

/-- Rendering of each expression of a list, in order. -/
def Expr.prettyList (ryu : F64 → String) : List Expr → List String
  | [] => []
  | x :: xs => Expr.pretty ryu x :: Expr.prettyList ryu xs
termination_by l => sizeOf l

/-- Printing of an array expression (`impl Pretty for ExprArray`): the
items joined by a comma and a space between parentheses, a trailing comma
when there is exactly one item. -/
def ExprArray.pretty (ryu : F64 → String) : ExprArray → String
  | .mk _ items =>
    "(" ++ joinSep ", " (Expr.prettyList ryu items) ++
      (if items.length = 1 then "," else "") ++ ")"
termination_by a => sizeOf a

/-- Printing of a dictionary expression (`impl Pretty for ExprDict`): a
colon between the parentheses when empty, the joined entries otherwise. -/
def ExprDict.pretty (ryu : F64 → String) : ExprDict → String
  | .mk _ items =>
    "(" ++
      (if items.isEmpty then ":" else joinSep ", " (Named.prettyList ryu items)) ++
      ")"
termination_by d => sizeOf d

/-- Printing of a named pair (`impl Pretty for Named`). -/
def Named.pretty (ryu : F64 → String) : Named → String
  | .mk name expr => Ident.pretty name ++ ": " ++ Expr.pretty ryu expr
termination_by n => sizeOf n

/-- Rendering of each named pair of a list, in order. -/
def Named.prettyList (ryu : F64 → String) : List Named → List String
  | [] => []
  | x :: xs => Named.pretty ryu x :: Named.prettyList ryu xs
termination_by l => sizeOf l

/-- Printing of a template expression (`impl Pretty for ExprTemplate`): a
tree that is exactly one call node delegates to the bracketed call
renderer in non-chained mode, any other tree prints between square
brackets. -/
def ExprTemplate.pretty (ryu : F64 → String) : ExprTemplate → String
  | .mk _ [Node.expr (Expr.call call)] => ExprCall.prettyBracketed ryu call false
  | .mk _ tree => "[" ++ Tree.pretty ryu tree ++ "]"
termination_by t => sizeOf t

/-- Printing of a grouped expression (`impl Pretty for ExprGroup`). -/
def ExprGroup.pretty (ryu : F64 → String) : ExprGroup → String
  | .mk _ expr => "(" ++ Expr.pretty ryu expr ++ ")"
termination_by g => sizeOf g

/-- Printing of a block expression (`impl Pretty for ExprBlock`): the
expressions joined by a semicolon and a space between braces, with a space
just inside each brace when there is more than one expression. -/
def ExprBlock.pretty (ryu : F64 → String) : ExprBlock → String
  | .mk _ exprs _ =>
    "\x7b" ++ (if 1 < exprs.length then " " else "") ++
      joinSep "; " (Expr.prettyList ryu exprs) ++
      (if 1 < exprs.length then " " else "") ++ "\x7d"
termination_by b => sizeOf b

/-- Printing of a unary operation (`impl Pretty for ExprUnary`): the
operator, a space after the word-form `not` only, then the operand. -/
def ExprUnary.pretty (ryu : F64 → String) : ExprUnary → String
  | .mk _ op expr =>
    UnOp.asStr op ++ (if op = UnOp.not then " " else "") ++ Expr.pretty ryu expr
termination_by u => sizeOf u

/-- Printing of a binary operation (`impl Pretty for ExprBinary`). -/
def ExprBinary.pretty (ryu : F64 → String) : ExprBinary → String
  | .mk _ lhs op rhs =>
    Expr.pretty ryu lhs ++ " " ++ BinOp.asStr op ++ " " ++ Expr.pretty ryu rhs
termination_by b => sizeOf b

/-- Printing of a call in parenthesized form (`impl Pretty for ExprCall`). -/
def ExprCall.pretty (ryu : F64 → String) : ExprCall → String
  | .mk _ callee args =>
    Expr.pretty ryu callee ++ "(" ++ ExprArgs.pretty ryu args ++ ")"
termination_by c => sizeOf c

/-- Printing of a call in bracketed form
(`ExprCall::pretty_bracketed`): the opener depends on the chained flag,
then the callee; a trailing positional call argument continues as a chain,
a trailing positional template argument becomes a body after the closing
bracket, otherwise all arguments are written and the bracket closed. -/
def ExprCall.prettyBracketed (ryu : F64 → String) : ExprCall → Bool → String
  | .mk _ callee (ExprArgs.mk _ items), chained =>
    (if chained then " | " else "#[") ++ Expr.pretty ryu callee ++
      (match hlast : items.getLast? with
       | some (Argument.pos (Expr.call call)) =>
         spacedArgs (Argument.prettyList ryu items.dropLast) ++
           ExprCall.prettyBracketed ryu call true
       | some (Argument.pos (Expr.template template)) =>
         spacedArgs (Argument.prettyList ryu items.dropLast) ++ "]" ++
           ExprTemplate.pretty ryu template
       | _ => spacedArgs (Argument.prettyList ryu items) ++ "]")
termination_by c chained => sizeOf c
decreasing_by
all_goals simp_wf
all_goals
  first
  | (have hx := sizeOf_lt_of_getLast? hlast
     simp at hx ⊢
     omega)
  | (have hx := sizeOf_dropLast_le items
     simp at hx ⊢
     omega)
  | (simp
     omega)
  | omega

/-- Printing of the argument list (`impl Pretty for ExprArgs`). -/
def ExprArgs.pretty (ryu : F64 → String) : ExprArgs → String
  | .mk _ items => joinSep ", " (Argument.prettyList ryu items)
termination_by a => sizeOf a

/-- Printing of a single argument (`impl Pretty for Argument`). -/
def Argument.pretty (ryu : F64 → String) : Argument → String
  | .pos expr => Expr.pretty ryu expr
  | .named n => Named.pretty ryu n
termination_by a => sizeOf a

/-- Rendering of each argument of a list, in order. -/
def Argument.prettyList (ryu : F64 → String) : List Argument → List String
  | [] => []
  | x :: xs => Argument.pretty ryu x :: Argument.prettyList ryu xs
termination_by l => sizeOf l

/-- Printing of a let expression (`impl Pretty for ExprLet`). -/
def ExprLet.pretty (ryu : F64 → String) : ExprLet → String
  | .mk _ binding init =>
    "#let " ++ Ident.pretty binding ++
      (match init with
       | some expr => " = " ++ Expr.pretty ryu expr
       | none => "")
termination_by l => sizeOf l

/-- Printing of an if expression (`impl Pretty for ExprIf`). -/
def ExprIf.pretty (ryu : F64 → String) : ExprIf → String
  | .mk _ condition ifBody elseBody =>
    "#if " ++ Expr.pretty ryu condition ++ " " ++ Expr.pretty ryu ifBody ++
      (match elseBody with
       | some expr => " #else " ++ Expr.pretty ryu expr
       | none => "")
termination_by i => sizeOf i

/-- Printing of a for expression (`impl Pretty for ExprFor`). -/
def ExprFor.pretty (ryu : F64 → String) : ExprFor → String
  | .mk _ pattern iter body =>
    "#for " ++ ForPattern.pretty pattern ++ " #in " ++ Expr.pretty ryu iter ++
      " " ++ Expr.pretty ryu body
termination_by f => sizeOf f

/-- Modelled from the spec: printing of a top-level node (`node.rs` is not
in the snapshot).  Text prints verbatim; a call expression at node level
prints in bracketed form (the tests `roundtrip("#[v]")` and
`test("\x7b#[v]\x7d", "\x7bv()\x7d")` of `mod.rs` pin this down); every
other expression prints through its own renderer. -/
def Node.pretty (ryu : F64 → String) : Node → String
  | .text s => s
  | .expr (Expr.call call) => ExprCall.prettyBracketed ryu call false
  | .expr e => Expr.pretty ryu e
termination_by n => sizeOf n

/-- Printing of a tree (`impl Pretty for Tree` in `mod.rs`): each node in
sequence order, concatenated directly. -/
def Tree.pretty (ryu : F64 → String) : Tree → String
  | [] => ""
  | node :: rest => Node.pretty ryu node ++ Tree.pretty ryu rest
termination_by t => sizeOf t

end

/-- The `write_args` closure of `ExprCall::pretty_bracketed`: nothing for
an empty argument list, a space and then the arguments joined by a comma
and a space otherwise. -/
def writeArgs (ryu : F64 → String) (items : List Argument) : String :=
  spacedArgs (Argument.prettyList ryu items)

/-- The all-zero span used as the canonical spanless position. -/
def Span.zero : Span := ⟨0, 0⟩

/-- Identifier with its span replaced by the zero span. -/
def Ident.eraseSpans (i : Ident) : Ident :=
  ⟨Span.zero, i.string⟩

/-- Literal with its span replaced by the zero span. -/
def Lit.eraseSpans (l : Lit) : Lit :=
  ⟨Span.zero, l.kind⟩

/-- For pattern with the spans of its identifiers replaced. -/
def ForPattern.eraseSpans : ForPattern → ForPattern
  | .value v => .value v.eraseSpans
  | .keyValue k v => .keyValue k.eraseSpans v.eraseSpans

mutual

/-- Expression with every span in it replaced by the zero span: two
expressions are equal up to spans exactly when their erasures are equal. -/
def Expr.eraseSpans : Expr → Expr
  | .lit v => .lit (Lit.eraseSpans v)
  | .ident v => .ident (Ident.eraseSpans v)
  | .array v => .array (ExprArray.eraseSpans v)
  | .dict v => .dict (ExprDict.eraseSpans v)
  | .template v => .template (ExprTemplate.eraseSpans v)
  | .group v => .group (ExprGroup.eraseSpans v)
  | .block v => .block (ExprBlock.eraseSpans v)
  | .unary v => .unary (ExprUnary.eraseSpans v)
  | .binary v => .binary (ExprBinary.eraseSpans v)
  | .call v => .call (ExprCall.eraseSpans v)
  | .letE v => .letE (ExprLet.eraseSpans v)
  | .ifE v => .ifE (ExprIf.eraseSpans v)
  | .forE v => .forE (ExprFor.eraseSpans v)
termination_by e => sizeOf e

/-- Span erasure of each expression of a list. -/
def Expr.eraseSpansList : List Expr → List Expr
  | [] => []
  | x :: xs => Expr.eraseSpans x :: Expr.eraseSpansList xs
termination_by l => sizeOf l

/-- Span erasure of an array expression. -/
def ExprArray.eraseSpans : ExprArray → ExprArray
  | .mk _ items => .mk Span.zero (Expr.eraseSpansList items)
termination_by a => sizeOf a

/-- Span erasure of a dictionary expression. -/
def ExprDict.eraseSpans : ExprDict → ExprDict
  | .mk _ items => .mk Span.zero (Named.eraseSpansList items)
termination_by d => sizeOf d

/-- Span erasure of a named pair. -/
def Named.eraseSpans : Named → Named
  | .mk name expr => .mk (Ident.eraseSpans name) (Expr.eraseSpans expr)
termination_by n => sizeOf n

/-- Span erasure of each named pair of a list. -/
def Named.eraseSpansList : List Named → List Named
  | [] => []
  | x :: xs => Named.eraseSpans x :: Named.eraseSpansList xs
termination_by l => sizeOf l

/-- Span erasure of a template expression. -/
def ExprTemplate.eraseSpans : ExprTemplate → ExprTemplate
  | .mk _ tree => .mk Span.zero (Node.eraseSpansList tree)
termination_by t => sizeOf t

/-- Span erasure of a grouped expression. -/
def ExprGroup.eraseSpans : ExprGroup → ExprGroup
  | .mk _ expr => .mk Span.zero (Expr.eraseSpans expr)
termination_by g => sizeOf g

/-- Span erasure of a block expression. -/
def ExprBlock.eraseSpans : ExprBlock → ExprBlock
  | .mk _ exprs scoping => .mk Span.zero (Expr.eraseSpansList exprs) scoping
termination_by b => sizeOf b

/-- Span erasure of a unary operation. -/
def ExprUnary.eraseSpans : ExprUnary → ExprUnary
  | .mk _ op expr => .mk Span.zero op (Expr.eraseSpans expr)
termination_by u => sizeOf u

/-- Span erasure of a binary operation. -/
def ExprBinary.eraseSpans : ExprBinary → ExprBinary
  | .mk _ lhs op rhs => .mk Span.zero (Expr.eraseSpans lhs) op (Expr.eraseSpans rhs)
termination_by b => sizeOf b

/-- Span erasure of a call expression. -/
def ExprCall.eraseSpans : ExprCall → ExprCall
  | .mk _ callee args => .mk Span.zero (Expr.eraseSpans callee) (ExprArgs.eraseSpans args)
termination_by c => sizeOf c

/-- Span erasure of an argument list. -/
def ExprArgs.eraseSpans : ExprArgs → ExprArgs
  | .mk _ items => .mk Span.zero (Argument.eraseSpansList items)
termination_by a => sizeOf a

/-- Span erasure of a single argument. -/
def Argument.eraseSpans : Argument → Argument
  | .pos expr => .pos (Expr.eraseSpans expr)
  | .named n => .named (Named.eraseSpans n)
termination_by a => sizeOf a

/-- Span erasure of each argument of a list. -/
def Argument.eraseSpansList : List Argument → List Argument
  | [] => []
  | x :: xs => Argument.eraseSpans x :: Argument.eraseSpansList xs
termination_by l => sizeOf l

/-- Span erasure of a let expression. -/
def ExprLet.eraseSpans : ExprLet → ExprLet
  | .mk _ binding init =>
    .mk Span.zero (Ident.eraseSpans binding)
      (match init with
       | some expr => some (Expr.eraseSpans expr)
       | none => none)
termination_by l => sizeOf l

/-- Span erasure of an if expression. -/
def ExprIf.eraseSpans : ExprIf → ExprIf
  | .mk _ condition ifBody elseBody =>
    .mk Span.zero (Expr.eraseSpans condition) (Expr.eraseSpans ifBody)
      (match elseBody with
       | some expr => some (Expr.eraseSpans expr)
       | none => none)
termination_by i => sizeOf i

/-- Span erasure of a for expression. -/
def ExprFor.eraseSpans : ExprFor → ExprFor
  | .mk _ pattern iter body =>
    .mk Span.zero (ForPattern.eraseSpans pattern) (Expr.eraseSpans iter)
      (Expr.eraseSpans body)
termination_by f => sizeOf f

/-- Span erasure of a node. -/
def Node.eraseSpans : Node → Node
  | .text s => .text s
  | .expr e => .expr (Expr.eraseSpans e)
termination_by n => sizeOf n

/-- Span erasure of each node of a tree. -/
def Node.eraseSpansList : List Node → List Node
  | [] => []
  | x :: xs => Node.eraseSpans x :: Node.eraseSpansList xs
termination_by l => sizeOf l

end

/-- Span erasure of a tree, named for use on `Tree` values. -/
def Tree.eraseSpans (t : Tree) : Tree :=
  Node.eraseSpansList t

/-- Specification helper: whether an optional trailing argument triggers
one of the two special cases of `pretty_bracketed` (a positional call or a
positional template in last position). -/
def trailingSpecial : Option Argument → Bool
  | some (Argument.pos (Expr.call _)) => true
  | some (Argument.pos (Expr.template _)) => true
  | _ => false

/-- List erasure is a map of the single-expression erasure. -/
theorem eraseSpansList_eq_map_expr :
    ∀ l : List Expr, Expr.eraseSpansList l = l.map Expr.eraseSpans
  | [] => by simp [Expr.eraseSpansList]
  | x :: xs => by simp [Expr.eraseSpansList, eraseSpansList_eq_map_expr xs]

/-- List erasure is a map of the single-pair erasure. -/
theorem eraseSpansList_eq_map_named :
    ∀ l : List Named, Named.eraseSpansList l = l.map Named.eraseSpans
  | [] => by simp [Named.eraseSpansList]
  | x :: xs => by simp [Named.eraseSpansList, eraseSpansList_eq_map_named xs]

/-- List erasure is a map of the single-argument erasure. -/
theorem eraseSpansList_eq_map_argument :
    ∀ l : List Argument, Argument.eraseSpansList l = l.map Argument.eraseSpans
  | [] => by simp [Argument.eraseSpansList]
  | x :: xs => by simp [Argument.eraseSpansList, eraseSpansList_eq_map_argument xs]

/-- List erasure is a map of the single-node erasure. -/
theorem eraseSpansList_eq_map_node :
    ∀ l : List Node, Node.eraseSpansList l = l.map Node.eraseSpans
  | [] => by simp [Node.eraseSpansList]
  | x :: xs => by simp [Node.eraseSpansList, eraseSpansList_eq_map_node xs]

/-- Behaviour of `pretty_bracketed` when the last argument is a positional
call: the preceding arguments are written, then the trailing call
continues the chain in chained mode. -/
theorem ExprCall.prettyBracketed_chain (ryu : F64 → String) (sp asp : Span)
    (callee : Expr) (items : List Argument) (c : ExprCall) (chained : Bool)
    (h : items.getLast? = some (Argument.pos (Expr.call c))) :
    ExprCall.prettyBracketed ryu (.mk sp callee (.mk asp items)) chained =
      (if chained then " | " else "#[") ++ Expr.pretty ryu callee ++
        (writeArgs ryu items.dropLast ++ ExprCall.prettyBracketed ryu c true) := by
  simp only [ExprCall.prettyBracketed, writeArgs]
  split
  all_goals split
  all_goals simp_all

/-- Behaviour of `pretty_bracketed` when the last argument is a positional
template (and so not a positional call): the preceding arguments are
written, the bracket closed, and the template rendered as a body. -/
theorem ExprCall.prettyBracketed_body (ryu : F64 → String) (sp asp : Span)
    (callee : Expr) (items : List Argument) (t : ExprTemplate) (chained : Bool)
    (h : items.getLast? = some (Argument.pos (Expr.template t))) :
    ExprCall.prettyBracketed ryu (.mk sp callee (.mk asp items)) chained =
      (if chained then " | " else "#[") ++ Expr.pretty ryu callee ++
        (writeArgs ryu items.dropLast ++ "]" ++ ExprTemplate.pretty ryu t) := by
  simp only [ExprCall.prettyBracketed, writeArgs]
  split
  all_goals split
  all_goals simp_all

/-- Behaviour of `pretty_bracketed` when there is no trailing positional
call or template: all arguments are written and the bracket closed. -/
theorem ExprCall.prettyBracketed_plain (ryu : F64 → String) (sp asp : Span)
    (callee : Expr) (items : List Argument) (chained : Bool)
    (h : trailingSpecial items.getLast? = false) :
    ExprCall.prettyBracketed ryu (.mk sp callee (.mk asp items)) chained =
      (if chained then " | " else "#[") ++ Expr.pretty ryu callee ++
        (writeArgs ryu items ++ "]") := by
  simp only [ExprCall.prettyBracketed, writeArgs]
  split
  all_goals split
  all_goals simp_all [trailingSpecial]

/-- Pretty printing of a for pattern ignores the identifier spans. -/
theorem pretty_eraseSpans_forPattern (p : ForPattern) :
    ForPattern.pretty p.eraseSpans = ForPattern.pretty p := by
  cases p <;> simp [ForPattern.pretty, ForPattern.eraseSpans, Ident.pretty, Ident.eraseSpans]

mutual

/-- Pretty printing of an expression is invariant under span erasure. -/
theorem pretty_eraseSpans_expr (ryu : F64 → String) :
    ∀ e : Expr, Expr.pretty ryu e.eraseSpans = Expr.pretty ryu e
  | .lit v => by
    simp [Expr.eraseSpans, Expr.pretty, Lit.pretty, Lit.eraseSpans]
  | .ident v => by
    simp [Expr.eraseSpans, Expr.pretty, Ident.pretty, Ident.eraseSpans]
  | .array v => by
    simp only [Expr.eraseSpans, Expr.pretty]
    exact pretty_eraseSpans_array ryu v
  | .dict v => by
    simp only [Expr.eraseSpans, Expr.pretty]
    exact pretty_eraseSpans_dict ryu v
  | .template v => by
    simp only [Expr.eraseSpans, Expr.pretty]
    exact pretty_eraseSpans_template ryu v
  | .group v => by
    simp only [Expr.eraseSpans, Expr.pretty]
    exact pretty_eraseSpans_group ryu v
  | .block v => by
    simp only [Expr.eraseSpans, Expr.pretty]
    exact pretty_eraseSpans_block ryu v
  | .unary v => by
    simp only [Expr.eraseSpans, Expr.pretty]
    exact pretty_eraseSpans_unary ryu v
  | .binary v => by
    simp only [Expr.eraseSpans, Expr.pretty]
    exact pretty_eraseSpans_binary ryu v
  | .call v => by
    simp only [Expr.eraseSpans, Expr.pretty]
    exact pretty_eraseSpans_call ryu v
  | .letE v => by
    simp only [Expr.eraseSpans, Expr.pretty]
    exact pretty_eraseSpans_letE ryu v
  | .ifE v => by
    simp only [Expr.eraseSpans, Expr.pretty]
    exact pretty_eraseSpans_ifE ryu v
  | .forE v => by
    simp only [Expr.eraseSpans, Expr.pretty]
    exact pretty_eraseSpans_forE ryu v
termination_by e => sizeOf e

/-- Rendering a list of expressions is invariant under span erasure. -/
theorem pretty_eraseSpans_exprList (ryu : F64 → String) :
    ∀ l : List Expr, Expr.prettyList ryu (Expr.eraseSpansList l) = Expr.prettyList ryu l
  | [] => by simp [Expr.eraseSpansList]
  | x :: xs => by
    simp only [Expr.eraseSpansList, Expr.prettyList]
    rw [pretty_eraseSpans_expr ryu x, pretty_eraseSpans_exprList ryu xs]
termination_by l => sizeOf l

/-- Printing of an array expression is invariant under span erasure. -/
theorem pretty_eraseSpans_array (ryu : F64 → String) :
    ∀ a : ExprArray, ExprArray.pretty ryu a.eraseSpans = ExprArray.pretty ryu a
  | .mk sp items => by
    have hlen : (Expr.eraseSpansList items).length = items.length := by
      rw [eraseSpansList_eq_map_expr]
      simp
    simp only [ExprArray.eraseSpans, ExprArray.pretty, hlen]
    rw [pretty_eraseSpans_exprList ryu items]
termination_by a => sizeOf a

/-- Printing of a dictionary expression is invariant under span erasure. -/
theorem pretty_eraseSpans_dict (ryu : F64 → String) :
    ∀ d : ExprDict, ExprDict.pretty ryu d.eraseSpans = ExprDict.pretty ryu d
  | .mk sp items => by
    cases items with
    | nil => simp [ExprDict.eraseSpans, ExprDict.pretty, Named.eraseSpansList]
    | cons n rest =>
      simp [ExprDict.eraseSpans, ExprDict.pretty, Named.eraseSpansList, Named.prettyList,
        pretty_eraseSpans_named ryu n, pretty_eraseSpans_namedList ryu rest]
termination_by d => sizeOf d

/-- Printing of a named pair is invariant under span erasure. -/
theorem pretty_eraseSpans_named (ryu : F64 → String) :
    ∀ n : Named, Named.pretty ryu n.eraseSpans = Named.pretty ryu n
  | .mk name expr => by
    simp only [Named.eraseSpans, Named.pretty, Ident.pretty, Ident.eraseSpans]
    rw [pretty_eraseSpans_expr ryu expr]
termination_by n => sizeOf n

/-- Rendering a list of named pairs is invariant under span erasure. -/
theorem pretty_eraseSpans_namedList (ryu : F64 → String) :
    ∀ l : List Named, Named.prettyList ryu (Named.eraseSpansList l) = Named.prettyList ryu l
  | [] => by simp [Named.eraseSpansList]
  | x :: xs => by
    simp only [Named.eraseSpansList, Named.prettyList]
    rw [pretty_eraseSpans_named ryu x, pretty_eraseSpans_namedList ryu xs]
termination_by l => sizeOf l

/-- Printing of a template expression is invariant under span erasure. -/
theorem pretty_eraseSpans_template (ryu : F64 → String) :
    ∀ t : ExprTemplate, ExprTemplate.pretty ryu t.eraseSpans = ExprTemplate.pretty ryu t
  | .mk sp tree => by
    simp only [ExprTemplate.eraseSpans]
    cases tree with
    | nil =>
      simp only [Node.eraseSpansList]
      rw [ExprTemplate.pretty.eq_2 ryu _ _ (by simp),
        ExprTemplate.pretty.eq_2 ryu _ _ (by simp)]
    | cons x rest =>
      cases rest with
      | cons y ys =>
        have ht := pretty_eraseSpans_tree ryu (x :: y :: ys)
        simp only [Node.eraseSpansList] at ht ⊢
        rw [ExprTemplate.pretty.eq_2 ryu _ _ (by simp),
          ExprTemplate.pretty.eq_2 ryu _ _ (by simp), ht]
      | nil =>
        cases x with
        | text s =>
          simp only [Node.eraseSpansList, Node.eraseSpans]
          rw [ExprTemplate.pretty.eq_2 ryu _ _ (by simp),
            ExprTemplate.pretty.eq_2 ryu _ _ (by simp)]
        | expr e =>
          have ht := pretty_eraseSpans_tree ryu [Node.expr e]
          simp only [Node.eraseSpansList, Node.eraseSpans] at ht ⊢
          cases e with
          | call c =>
            simp only [Expr.eraseSpans]
            rw [ExprTemplate.pretty.eq_1, ExprTemplate.pretty.eq_1]
            exact ExprCall.prettyBracketed_eraseSpans ryu c false
          | lit v =>
            simp only [Expr.eraseSpans] at ht ⊢
            rw [ExprTemplate.pretty.eq_2 ryu _ _ (by simp),
              ExprTemplate.pretty.eq_2 ryu _ _ (by simp), ht]
          | ident v =>
            simp only [Expr.eraseSpans] at ht ⊢
            rw [ExprTemplate.pretty.eq_2 ryu _ _ (by simp),
              ExprTemplate.pretty.eq_2 ryu _ _ (by simp), ht]
          | array v =>
            simp only [Expr.eraseSpans] at ht ⊢
            rw [ExprTemplate.pretty.eq_2 ryu _ _ (by simp),
              ExprTemplate.pretty.eq_2 ryu _ _ (by simp), ht]
          | dict v =>
            simp only [Expr.eraseSpans] at ht ⊢
            rw [ExprTemplate.pretty.eq_2 ryu _ _ (by simp),
              ExprTemplate.pretty.eq_2 ryu _ _ (by simp), ht]
          | template v =>
            simp only [Expr.eraseSpans] at ht ⊢
            rw [ExprTemplate.pretty.eq_2 ryu _ _ (by simp),
              ExprTemplate.pretty.eq_2 ryu _ _ (by simp), ht]
          | group v =>
            simp only [Expr.eraseSpans] at ht ⊢
            rw [ExprTemplate.pretty.eq_2 ryu _ _ (by simp),
              ExprTemplate.pretty.eq_2 ryu _ _ (by simp), ht]
          | block v =>
            simp only [Expr.eraseSpans] at ht ⊢
            rw [ExprTemplate.pretty.eq_2 ryu _ _ (by simp),
              ExprTemplate.pretty.eq_2 ryu _ _ (by simp), ht]
          | unary v =>
            simp only [Expr.eraseSpans] at ht ⊢
            rw [ExprTemplate.pretty.eq_2 ryu _ _ (by simp),
              ExprTemplate.pretty.eq_2 ryu _ _ (by simp), ht]
          | binary v =>
            simp only [Expr.eraseSpans] at ht ⊢
            rw [ExprTemplate.pretty.eq_2 ryu _ _ (by simp),
              ExprTemplate.pretty.eq_2 ryu _ _ (by simp), ht]
          | letE v =>
            simp only [Expr.eraseSpans] at ht ⊢
            rw [ExprTemplate.pretty.eq_2 ryu _ _ (by simp),
              ExprTemplate.pretty.eq_2 ryu _ _ (by simp), ht]
          | ifE v =>
            simp only [Expr.eraseSpans] at ht ⊢
            rw [ExprTemplate.pretty.eq_2 ryu _ _ (by simp),
              ExprTemplate.pretty.eq_2 ryu _ _ (by simp), ht]
          | forE v =>
            simp only [Expr.eraseSpans] at ht ⊢
            rw [ExprTemplate.pretty.eq_2 ryu _ _ (by simp),
              ExprTemplate.pretty.eq_2 ryu _ _ (by simp), ht]
termination_by t => sizeOf t

/-- Printing of a grouped expression is invariant under span erasure. -/
theorem pretty_eraseSpans_group (ryu : F64 → String) :
    ∀ g : ExprGroup, ExprGroup.pretty ryu g.eraseSpans = ExprGroup.pretty ryu g
  | .mk sp expr => by
    simp only [ExprGroup.eraseSpans, ExprGroup.pretty]
    rw [pretty_eraseSpans_expr ryu expr]
termination_by g => sizeOf g

/-- Printing of a block expression is invariant under span erasure. -/
theorem pretty_eraseSpans_block (ryu : F64 → String) :
    ∀ b : ExprBlock, ExprBlock.pretty ryu b.eraseSpans = ExprBlock.pretty ryu b
  | .mk sp exprs scoping => by
    have hlen : (Expr.eraseSpansList exprs).length = exprs.length := by
      rw [eraseSpansList_eq_map_expr]
      simp
    simp only [ExprBlock.eraseSpans, ExprBlock.pretty, hlen]
    rw [pretty_eraseSpans_exprList ryu exprs]
termination_by b => sizeOf b

/-- Printing of a unary operation is invariant under span erasure. -/
theorem pretty_eraseSpans_unary (ryu : F64 → String) :
    ∀ u : ExprUnary, ExprUnary.pretty ryu u.eraseSpans = ExprUnary.pretty ryu u
  | .mk sp op expr => by
    simp only [ExprUnary.eraseSpans, ExprUnary.pretty]
    rw [pretty_eraseSpans_expr ryu expr]
termination_by u => sizeOf u

/-- Printing of a binary operation is invariant under span erasure. -/
theorem pretty_eraseSpans_binary (ryu : F64 → String) :
    ∀ b : ExprBinary, ExprBinary.pretty ryu b.eraseSpans = ExprBinary.pretty ryu b
  | .mk sp lhs op rhs => by
    simp only [ExprBinary.eraseSpans, ExprBinary.pretty]
    rw [pretty_eraseSpans_expr ryu lhs, pretty_eraseSpans_expr ryu rhs]
termination_by b => sizeOf b

/-- Printing of a parenthesized call is invariant under span erasure. -/
theorem pretty_eraseSpans_call (ryu : F64 → String) :
    ∀ c : ExprCall, ExprCall.pretty ryu c.eraseSpans = ExprCall.pretty ryu c
  | .mk sp callee args => by
    simp only [ExprCall.eraseSpans, ExprCall.pretty]
    rw [pretty_eraseSpans_expr ryu callee, pretty_eraseSpans_args ryu args]
termination_by c => sizeOf c

/-- Printing of an argument list is invariant under span erasure. -/
theorem pretty_eraseSpans_args (ryu : F64 → String) :
    ∀ a : ExprArgs, ExprArgs.pretty ryu a.eraseSpans = ExprArgs.pretty ryu a
  | .mk sp items => by
    simp only [ExprArgs.eraseSpans, ExprArgs.pretty]
    rw [pretty_eraseSpans_argumentList ryu items]
termination_by a => sizeOf a

/-- Printing of a single argument is invariant under span erasure. -/
theorem pretty_eraseSpans_argument (ryu : F64 → String) :
    ∀ a : Argument, Argument.pretty ryu a.eraseSpans = Argument.pretty ryu a
  | .pos expr => by
    simp only [Argument.eraseSpans, Argument.pretty]
    rw [pretty_eraseSpans_expr ryu expr]
  | .named n => by
    simp only [Argument.eraseSpans, Argument.pretty]
    rw [pretty_eraseSpans_named ryu n]
termination_by a => sizeOf a

/-- Rendering a list of arguments is invariant under span erasure. -/
theorem pretty_eraseSpans_argumentList (ryu : F64 → String) :
    ∀ l : List Argument, Argument.prettyList ryu (Argument.eraseSpansList l) = Argument.prettyList ryu l
  | [] => by simp [Argument.eraseSpansList]
  | x :: xs => by
    simp only [Argument.eraseSpansList, Argument.prettyList]
    rw [pretty_eraseSpans_argument ryu x, pretty_eraseSpans_argumentList ryu xs]
termination_by l => sizeOf l

/-- Printing in bracketed form is invariant under span erasure. -/
theorem ExprCall.prettyBracketed_eraseSpans (ryu : F64 → String) :
    ∀ (c : ExprCall) (chained : Bool),
      ExprCall.prettyBracketed ryu c.eraseSpans chained = ExprCall.prettyBracketed ryu c chained
  | .mk sp callee (.mk asp items), chained => by
    have hmap : Argument.eraseSpansList items = items.map Argument.eraseSpans :=
      eraseSpansList_eq_map_argument items
    have hdrop : (Argument.eraseSpansList items).dropLast = Argument.eraseSpansList items.dropLast := by
      rw [hmap, ← List.map_dropLast, ← eraseSpansList_eq_map_argument]
    have hcallee := pretty_eraseSpans_expr ryu callee
    cases h : items.getLast? with
    | none =>
      have herase : (Argument.eraseSpansList items).getLast? = Option.none := by
        rw [hmap, List.getLast?_map, h]
        rfl
      simp only [ExprCall.eraseSpans, ExprArgs.eraseSpans]
      rw [ExprCall.prettyBracketed_plain ryu _ _ _ _ _ (by rw [herase]; rfl),
        ExprCall.prettyBracketed_plain ryu _ _ _ _ _ (by rw [h]; rfl)]
      rw [hcallee]
      simp only [writeArgs]
      rw [pretty_eraseSpans_argumentList ryu items]
    | some a =>
      have herase : (Argument.eraseSpansList items).getLast? = some a.eraseSpans := by
        rw [hmap, List.getLast?_map, h]
        rfl
      cases a with
      | named n =>
        simp only [ExprCall.eraseSpans, ExprArgs.eraseSpans]
        rw [ExprCall.prettyBracketed_plain ryu _ _ _ _ _
            (by rw [herase]; simp [Argument.eraseSpans, trailingSpecial]),
          ExprCall.prettyBracketed_plain ryu _ _ _ _ _ (by rw [h]; rfl)]
        rw [hcallee]
        simp only [writeArgs]
        rw [pretty_eraseSpans_argumentList ryu items]
      | pos e =>
        cases e with
        | call c =>
          have herase' : (Argument.eraseSpansList items).getLast? =
              some (Argument.pos (Expr.call c.eraseSpans)) := by
            rw [herase]
            simp [Argument.eraseSpans, Expr.eraseSpans]
          simp only [ExprCall.eraseSpans, ExprArgs.eraseSpans]
          rw [ExprCall.prettyBracketed_chain ryu _ _ _ _ _ _ herase',
            ExprCall.prettyBracketed_chain ryu _ _ _ _ _ _ h]
          rw [hcallee, hdrop]
          simp only [writeArgs]
          rw [pretty_eraseSpans_argumentList ryu items.dropLast,
            ExprCall.prettyBracketed_eraseSpans ryu c true]
        | template t =>
          have herase' : (Argument.eraseSpansList items).getLast? =
              some (Argument.pos (Expr.template t.eraseSpans)) := by
            rw [herase]
            simp [Argument.eraseSpans, Expr.eraseSpans]
          simp only [ExprCall.eraseSpans, ExprArgs.eraseSpans]
          rw [ExprCall.prettyBracketed_body ryu _ _ _ _ _ _ herase',
            ExprCall.prettyBracketed_body ryu _ _ _ _ _ _ h]
          rw [hcallee, hdrop]
          simp only [writeArgs]
          rw [pretty_eraseSpans_argumentList ryu items.dropLast,
            pretty_eraseSpans_template ryu t]
        | lit v =>
          simp only [ExprCall.eraseSpans, ExprArgs.eraseSpans]
          rw [ExprCall.prettyBracketed_plain ryu _ _ _ _ _
              (by rw [herase]; simp [Argument.eraseSpans, Expr.eraseSpans, trailingSpecial]),
            ExprCall.prettyBracketed_plain ryu _ _ _ _ _ (by rw [h]; rfl)]
          rw [hcallee]
          simp only [writeArgs]
          rw [pretty_eraseSpans_argumentList ryu items]
        | ident v =>
          simp only [ExprCall.eraseSpans, ExprArgs.eraseSpans]
          rw [ExprCall.prettyBracketed_plain ryu _ _ _ _ _
              (by rw [herase]; simp [Argument.eraseSpans, Expr.eraseSpans, trailingSpecial]),
            ExprCall.prettyBracketed_plain ryu _ _ _ _ _ (by rw [h]; rfl)]
          rw [hcallee]
          simp only [writeArgs]
          rw [pretty_eraseSpans_argumentList ryu items]
        | array v =>
          simp only [ExprCall.eraseSpans, ExprArgs.eraseSpans]
          rw [ExprCall.prettyBracketed_plain ryu _ _ _ _ _
              (by rw [herase]; simp [Argument.eraseSpans, Expr.eraseSpans, trailingSpecial]),
            ExprCall.prettyBracketed_plain ryu _ _ _ _ _ (by rw [h]; rfl)]
          rw [hcallee]
          simp only [writeArgs]
          rw [pretty_eraseSpans_argumentList ryu items]
        | dict v =>
          simp only [ExprCall.eraseSpans, ExprArgs.eraseSpans]
          rw [ExprCall.prettyBracketed_plain ryu _ _ _ _ _
              (by rw [herase]; simp [Argument.eraseSpans, Expr.eraseSpans, trailingSpecial]),
            ExprCall.prettyBracketed_plain ryu _ _ _ _ _ (by rw [h]; rfl)]
          rw [hcallee]
          simp only [writeArgs]
          rw [pretty_eraseSpans_argumentList ryu items]
        | group v =>
          simp only [ExprCall.eraseSpans, ExprArgs.eraseSpans]
          rw [ExprCall.prettyBracketed_plain ryu _ _ _ _ _
              (by rw [herase]; simp [Argument.eraseSpans, Expr.eraseSpans, trailingSpecial]),
            ExprCall.prettyBracketed_plain ryu _ _ _ _ _ (by rw [h]; rfl)]
          rw [hcallee]
          simp only [writeArgs]
          rw [pretty_eraseSpans_argumentList ryu items]
        | block v =>
          simp only [ExprCall.eraseSpans, ExprArgs.eraseSpans]
          rw [ExprCall.prettyBracketed_plain ryu _ _ _ _ _
              (by rw [herase]; simp [Argument.eraseSpans, Expr.eraseSpans, trailingSpecial]),
            ExprCall.prettyBracketed_plain ryu _ _ _ _ _ (by rw [h]; rfl)]
          rw [hcallee]
          simp only [writeArgs]
          rw [pretty_eraseSpans_argumentList ryu items]
        | unary v =>
          simp only [ExprCall.eraseSpans, ExprArgs.eraseSpans]
          rw [ExprCall.prettyBracketed_plain ryu _ _ _ _ _
              (by rw [herase]; simp [Argument.eraseSpans, Expr.eraseSpans, trailingSpecial]),
            ExprCall.prettyBracketed_plain ryu _ _ _ _ _ (by rw [h]; rfl)]
          rw [hcallee]
          simp only [writeArgs]
          rw [pretty_eraseSpans_argumentList ryu items]
        | binary v =>
          simp only [ExprCall.eraseSpans, ExprArgs.eraseSpans]
          rw [ExprCall.prettyBracketed_plain ryu _ _ _ _ _
              (by rw [herase]; simp [Argument.eraseSpans, Expr.eraseSpans, trailingSpecial]),
            ExprCall.prettyBracketed_plain ryu _ _ _ _ _ (by rw [h]; rfl)]
          rw [hcallee]
          simp only [writeArgs]
          rw [pretty_eraseSpans_argumentList ryu items]
        | letE v =>
          simp only [ExprCall.eraseSpans, ExprArgs.eraseSpans]
          rw [ExprCall.prettyBracketed_plain ryu _ _ _ _ _
              (by rw [herase]; simp [Argument.eraseSpans, Expr.eraseSpans, trailingSpecial]),
            ExprCall.prettyBracketed_plain ryu _ _ _ _ _ (by rw [h]; rfl)]
          rw [hcallee]
          simp only [writeArgs]
          rw [pretty_eraseSpans_argumentList ryu items]
        | ifE v =>
          simp only [ExprCall.eraseSpans, ExprArgs.eraseSpans]
          rw [ExprCall.prettyBracketed_plain ryu _ _ _ _ _
              (by rw [herase]; simp [Argument.eraseSpans, Expr.eraseSpans, trailingSpecial]),
            ExprCall.prettyBracketed_plain ryu _ _ _ _ _ (by rw [h]; rfl)]
          rw [hcallee]
          simp only [writeArgs]
          rw [pretty_eraseSpans_argumentList ryu items]
        | forE v =>
          simp only [ExprCall.eraseSpans, ExprArgs.eraseSpans]
          rw [ExprCall.prettyBracketed_plain ryu _ _ _ _ _
              (by rw [herase]; simp [Argument.eraseSpans, Expr.eraseSpans, trailingSpecial]),
            ExprCall.prettyBracketed_plain ryu _ _ _ _ _ (by rw [h]; rfl)]
          rw [hcallee]
          simp only [writeArgs]
          rw [pretty_eraseSpans_argumentList ryu items]
termination_by c chained => sizeOf c
decreasing_by
all_goals simp_wf
all_goals
  first
  | (have hx := sizeOf_lt_of_getLast? h
     simp only [Argument.pos.sizeOf_spec, Expr.call.sizeOf_spec, Expr.template.sizeOf_spec,
       ExprCall.mk.sizeOf_spec, ExprArgs.mk.sizeOf_spec] at hx ⊢
     omega)
  | (have hx := sizeOf_dropLast_le items
     simp only [ExprCall.mk.sizeOf_spec, ExprArgs.mk.sizeOf_spec] at hx ⊢
     omega)
  | (simp only [ExprCall.mk.sizeOf_spec, ExprArgs.mk.sizeOf_spec] at *
     omega)
  | simp_arith
  | omega

/-- Printing of a let expression is invariant under span erasure. -/
theorem pretty_eraseSpans_letE (ryu : F64 → String) :
    ∀ l : ExprLet, ExprLet.pretty ryu l.eraseSpans = ExprLet.pretty ryu l
  | .mk sp binding init => by
    cases init with
    | none =>
      simp [ExprLet.eraseSpans, ExprLet.pretty, Ident.pretty, Ident.eraseSpans]
    | some expr =>
      simp only [ExprLet.eraseSpans, ExprLet.pretty, Ident.pretty, Ident.eraseSpans]
      rw [pretty_eraseSpans_expr ryu expr]
termination_by l => sizeOf l

/-- Printing of an if expression is invariant under span erasure. -/
theorem pretty_eraseSpans_ifE (ryu : F64 → String) :
    ∀ i : ExprIf, ExprIf.pretty ryu i.eraseSpans = ExprIf.pretty ryu i
  | .mk sp condition ifBody elseBody => by
    cases elseBody with
    | none =>
      simp only [ExprIf.eraseSpans, ExprIf.pretty]
      rw [pretty_eraseSpans_expr ryu condition, pretty_eraseSpans_expr ryu ifBody]
    | some expr =>
      simp only [ExprIf.eraseSpans, ExprIf.pretty]
      rw [pretty_eraseSpans_expr ryu condition, pretty_eraseSpans_expr ryu ifBody,
        pretty_eraseSpans_expr ryu expr]
termination_by i => sizeOf i

/-- Printing of a for expression is invariant under span erasure. -/
theorem pretty_eraseSpans_forE (ryu : F64 → String) :
    ∀ f : ExprFor, ExprFor.pretty ryu f.eraseSpans = ExprFor.pretty ryu f
  | .mk sp pattern iter body => by
    simp only [ExprFor.eraseSpans, ExprFor.pretty, pretty_eraseSpans_forPattern]
    rw [pretty_eraseSpans_expr ryu iter, pretty_eraseSpans_expr ryu body]
termination_by f => sizeOf f

/-- Printing of a node is invariant under span erasure. -/
theorem pretty_eraseSpans_node (ryu : F64 → String) :
    ∀ n : Node, Node.pretty ryu n.eraseSpans = Node.pretty ryu n
  | .text s => by simp [Node.eraseSpans]
  | .expr e => by
    have he := pretty_eraseSpans_expr ryu e
    simp only [Node.eraseSpans]
    cases e with
    | call c =>
      simp only [Expr.eraseSpans]
      rw [Node.pretty.eq_2, Node.pretty.eq_2]
      exact ExprCall.prettyBracketed_eraseSpans ryu c false
    | lit v =>
      simp only [Expr.eraseSpans] at he ⊢
      rw [Node.pretty.eq_3 ryu _ (by simp), Node.pretty.eq_3 ryu _ (by simp), he]
    | ident v =>
      simp only [Expr.eraseSpans] at he ⊢
      rw [Node.pretty.eq_3 ryu _ (by simp), Node.pretty.eq_3 ryu _ (by simp), he]
    | array v =>
      simp only [Expr.eraseSpans] at he ⊢
      rw [Node.pretty.eq_3 ryu _ (by simp), Node.pretty.eq_3 ryu _ (by simp), he]
    | dict v =>
      simp only [Expr.eraseSpans] at he ⊢
      rw [Node.pretty.eq_3 ryu _ (by simp), Node.pretty.eq_3 ryu _ (by simp), he]
    | template v =>
      simp only [Expr.eraseSpans] at he ⊢
      rw [Node.pretty.eq_3 ryu _ (by simp), Node.pretty.eq_3 ryu _ (by simp), he]
    | group v =>
      simp only [Expr.eraseSpans] at he ⊢
      rw [Node.pretty.eq_3 ryu _ (by simp), Node.pretty.eq_3 ryu _ (by simp), he]
    | block v =>
      simp only [Expr.eraseSpans] at he ⊢
      rw [Node.pretty.eq_3 ryu _ (by simp), Node.pretty.eq_3 ryu _ (by simp), he]
    | unary v =>
      simp only [Expr.eraseSpans] at he ⊢
      rw [Node.pretty.eq_3 ryu _ (by simp), Node.pretty.eq_3 ryu _ (by simp), he]
    | binary v =>
      simp only [Expr.eraseSpans] at he ⊢
      rw [Node.pretty.eq_3 ryu _ (by simp), Node.pretty.eq_3 ryu _ (by simp), he]
    | letE v =>
      simp only [Expr.eraseSpans] at he ⊢
      rw [Node.pretty.eq_3 ryu _ (by simp), Node.pretty.eq_3 ryu _ (by simp), he]
    | ifE v =>
      simp only [Expr.eraseSpans] at he ⊢
      rw [Node.pretty.eq_3 ryu _ (by simp), Node.pretty.eq_3 ryu _ (by simp), he]
    | forE v =>
      simp only [Expr.eraseSpans] at he ⊢
      rw [Node.pretty.eq_3 ryu _ (by simp), Node.pretty.eq_3 ryu _ (by simp), he]
termination_by n => sizeOf n

/-- Printing of a tree is invariant under span erasure. -/
theorem pretty_eraseSpans_tree (ryu : F64 → String) :
    ∀ l : List Node, Tree.pretty ryu (Node.eraseSpansList l) = Tree.pretty ryu l
  | [] => by simp [Node.eraseSpansList]
  | n :: rest => by
    simp only [Node.eraseSpansList, Tree.pretty]
    rw [pretty_eraseSpans_node ryu n, pretty_eraseSpans_tree ryu rest]
termination_by l => sizeOf l

end

/-- Recursion equation of the tail worker of `String.intercalate`. -/
theorem intercalate_go_cons (s x y : String) (l : List String) :
    String.intercalate.go x s (y :: l) = x ++ s ++ String.intercalate.go y s l := by
  induction l generalizing x y with
  | nil => rfl
  | cons z zs ih =>
    rw [String.intercalate.go, ih, ih]
    simp [String.append_assoc]

/-- Recursion equation of `String.intercalate` on a list of two or more. -/
theorem intercalate_cons_cons (s x y : String) (l : List String) :
    String.intercalate s (x :: y :: l) = x ++ s ++ String.intercalate s (y :: l) := by
  show String.intercalate.go x s (y :: l) = _
  rw [intercalate_go_cons]
  rfl

/-- The modelled `Printer::join` agrees with the standard intercalation. -/
theorem joinSep_eq_intercalate (s : String) :
    ∀ l : List String, joinSep s l = String.intercalate s l
  | [] => rfl
  | [x] => rfl
  | x :: y :: l => by
    rw [intercalate_cons_cons]
    show x ++ s ++ joinSep s (y :: l) = _
    rw [joinSep_eq_intercalate s (y :: l)]

/-- Folding append from an arbitrary initial string splits off the start. -/
theorem foldl_append_init (l : List String) :
    ∀ x : String, l.foldl (fun r s => r ++ s) x = x ++ l.foldl (fun r s => r ++ s) "" := by
  induction l with
  | nil =>
    intro x
    simp [List.foldl]
  | cons y ys ih =>
    intro x
    rw [List.foldl, List.foldl, ih (x ++ y), ih ("" ++ y)]
    simp [String.append_assoc]

/-- Recursion equation of `String.join`. -/
theorem join_cons (x : String) (l : List String) :
    String.join (x :: l) = x ++ String.join l := by
  show List.foldl (fun r s => r ++ s) ("" ++ x) l = _
  rw [foldl_append_init l ("" ++ x)]
  simp [String.join]

/-- The rendered-expression list is a map of the single renderer. -/
theorem prettyList_eq_map_expr (ryu : F64 → String) :
    ∀ l : List Expr, Expr.prettyList ryu l = l.map (Expr.pretty ryu)
  | [] => by simp [Expr.prettyList]
  | x :: xs => by simp [Expr.prettyList, prettyList_eq_map_expr ryu xs]

/-- The rendered-pair list is a map of the single renderer. -/
theorem prettyList_eq_map_named (ryu : F64 → String) :
    ∀ l : List Named, Named.prettyList ryu l = l.map (Named.pretty ryu)
  | [] => by simp [Named.prettyList]
  | x :: xs => by simp [Named.prettyList, prettyList_eq_map_named ryu xs]

/-- The rendered-argument list is a map of the single renderer. -/
theorem prettyList_eq_map_argument (ryu : F64 → String) :
    ∀ l : List Argument, Argument.prettyList ryu l = l.map (Argument.pretty ryu)
  | [] => by simp [Argument.prettyList]
  | x :: xs => by simp [Argument.prettyList, prettyList_eq_map_argument ryu xs]

/-- A non-chained bracketed call always opens with the hash bracket. -/
theorem ExprCall.prettyBracketed_false_opens (ryu : F64 → String) (c : ExprCall) :
    ∃ rest : String, ExprCall.prettyBracketed ryu c false = "#[" ++ rest := by
  cases c with
  | mk sp callee args =>
    cases args with
    | mk asp items =>
      rw [ExprCall.prettyBracketed.eq_1]
      simp only [Bool.false_eq_true, if_false]
      exact ⟨_, String.append_assoc _ _ _⟩

/-- Stand-in decimal formatter used in the closed statements below; none of
the concrete inputs there contains a float, length, angle or percent
literal, so its values never appear in the outputs. -/
def ryuZero : F64 → String := fun _ => "0.0"

/-- Fixture: the identifier `v` at the zero span. -/
def identV : Ident := ⟨Span.zero, "v"⟩

/-- Fixture: the identifier `a` at the zero span. -/
def identA : Ident := ⟨Span.zero, "a"⟩

/-- Fixture: the identifier `b` at the zero span. -/
def identB : Ident := ⟨Span.zero, "b"⟩

/-- Fixture: the argumentless call `v()`, the bracket form of `#[v]`. -/
def callV : ExprCall := .mk Span.zero (.ident identV) (.mk Span.zero [])

/-- Fixture: the tree of the source `[#[v]]`: one template node whose
content is exactly the call node `#[v]`. -/
def treeTemplateV : Tree :=
  [Node.expr (.template (.mk Span.zero [Node.expr (.call callV)]))]

/-- Fixture: the tree of the source `#[v]`: the bare call node. -/
def treeCallV : Tree := [Node.expr (.call callV)]

/-- Fixture: the call `v` with the two positional identifier arguments `a`
and `b`. -/
def callVab : ExprCall :=
  .mk Span.zero (.ident identV)
    (.mk Span.zero [Argument.pos (.ident identA), Argument.pos (.ident identB)])

/-- Printing a tree is the join of the printed nodes. -/
theorem Tree.pretty_eq_join (ryu : F64 → String) :
    ∀ ns : List Node, Tree.pretty ryu ns = String.join (ns.map (Node.pretty ryu))
  | [] => by simp [Tree.pretty, String.join]
  | n :: ns => by
    rw [List.map, join_cons, ← Tree.pretty_eq_join ryu ns]
    simp [Tree.pretty]

/-- C1, counterexample.  The trees of the sources `[#[v]]` (a template node
whose content is exactly the call node `#[v]`) and `#[v]` (the bare call
node) are distinct even after span erasure, yet both print as `#[v]`; hence
no parse function whatsoever can recover both trees from their printed
forms, and the universal print-then-parse roundtrip fails. -/
theorem template_collapse_defeats_roundtrip :
    Tree.pretty ryuZero treeTemplateV = "#[v]" ∧
    Tree.pretty ryuZero treeCallV = "#[v]" ∧
    Tree.eraseSpans treeTemplateV ≠ Tree.eraseSpans treeCallV ∧
    ¬ ∃ parse : String → Tree,
        Tree.eraseSpans (parse (Tree.pretty ryuZero treeTemplateV)) =
            Tree.eraseSpans treeTemplateV ∧
        Tree.eraseSpans (parse (Tree.pretty ryuZero treeCallV)) =
            Tree.eraseSpans treeCallV := by
  have h1 : Tree.pretty ryuZero treeTemplateV = "#[v]" := by
    simp [treeTemplateV, callV, identV, Tree.pretty, Node.pretty, ExprTemplate.pretty,
      ExprCall.prettyBracketed, Expr.pretty, Ident.pretty, spacedArgs, Argument.prettyList]
  have h2 : Tree.pretty ryuZero treeCallV = "#[v]" := by
    simp [treeCallV, callV, identV, Tree.pretty, Node.pretty,
      ExprCall.prettyBracketed, Expr.pretty, Ident.pretty, spacedArgs, Argument.prettyList]
  have hne : Tree.eraseSpans treeTemplateV ≠ Tree.eraseSpans treeCallV := by
    simp [Tree.eraseSpans, treeTemplateV, treeCallV, Node.eraseSpansList, Node.eraseSpans,
      Expr.eraseSpans, ExprTemplate.eraseSpans, ExprCall.eraseSpans]
  refine ⟨h1, h2, hne, ?_⟩
  rintro ⟨parse, hp1, hp2⟩
  rw [h1] at hp1
  rw [h2] at hp2
  exact hne (hp1.symm.trans hp2)

/-- C1, amended.  Printing collapses a template whose content is exactly
one call node into exactly the text of the bare bracketed call node, so
printing is not injective on parser-reachable trees and re-parsing the
printed text cannot restore every tree; the roundtrip holds at most up to
this collapse. -/
theorem template_single_call_collapse (ryu : F64 → String) (sp : Span) (c : ExprCall) :
    ExprTemplate.pretty ryu (.mk sp [Node.expr (Expr.call c)]) =
      ExprCall.prettyBracketed ryu c false ∧
    Node.pretty ryu (Node.expr (Expr.template (.mk sp [Node.expr (Expr.call c)]))) =
      Node.pretty ryu (Node.expr (Expr.call c)) := by
  constructor
  · exact ExprTemplate.pretty.eq_1 ryu sp c
  · rw [Node.pretty.eq_3 ryu _ (by simp), Node.pretty.eq_2]
    simp only [Expr.pretty]
    exact ExprTemplate.pretty.eq_1 ryu sp c

/-- C2.  The bracketed printer opens with `#[` when not chained and with
` | ` when chained, then prints the callee; a trailing positional call
argument is rendered by writing the preceding arguments and continuing the
chain recursively in chained mode, a trailing positional template argument
by writing the preceding arguments, closing the bracket and rendering the
template as a body, and in every other case all arguments are written and
the bracket closed.  A trailing positional call can never simultaneously
be a positional template, and the call case is the one taken for a
trailing call whatever the shape of its own arguments. -/
theorem pretty_bracketed_case_analysis (ryu : F64 → String) (sp asp : Span)
    (callee : Expr) (chained : Bool) :
    (∀ (init : List Argument) (c : ExprCall),
      ExprCall.prettyBracketed ryu
          (.mk sp callee (.mk asp (init ++ [Argument.pos (Expr.call c)]))) chained =
        (if chained then " | " else "#[") ++ Expr.pretty ryu callee ++
          (writeArgs ryu init ++ ExprCall.prettyBracketed ryu c true)) ∧
    (∀ (init : List Argument) (t : ExprTemplate),
      ExprCall.prettyBracketed ryu
          (.mk sp callee (.mk asp (init ++ [Argument.pos (Expr.template t)]))) chained =
        (if chained then " | " else "#[") ++ Expr.pretty ryu callee ++
          (writeArgs ryu init ++ "]" ++ ExprTemplate.pretty ryu t)) ∧
    (∀ items : List Argument, trailingSpecial items.getLast? = false →
      ExprCall.prettyBracketed ryu (.mk sp callee (.mk asp items)) chained =
        (if chained then " | " else "#[") ++ Expr.pretty ryu callee ++
          (writeArgs ryu items ++ "]")) := by
  refine ⟨?_, ?_, ?_⟩
  · intro init c
    rw [ExprCall.prettyBracketed_chain ryu sp asp callee _ c chained
        (by rw [List.getLast?_concat]), List.dropLast_concat]
  · intro init t
    rw [ExprCall.prettyBracketed_body ryu sp asp callee _ t chained
        (by rw [List.getLast?_concat]), List.dropLast_concat]
  · intro items h
    exact ExprCall.prettyBracketed_plain ryu sp asp callee items chained h

/-- C2, witness: the case analysis applied to the argumentless call `#[v]`,
whose trailing-argument inspection falls through to the plain case. -/
theorem pretty_bracketed_case_analysis_witness :
    ExprCall.prettyBracketed ryuZero (.mk Span.zero (.ident identV) (.mk Span.zero [])) false =
      "#[v]" := by
  rw [(pretty_bracketed_case_analysis ryuZero Span.zero Span.zero (.ident identV) false).2.2
    [] rfl]
  simp [Expr.pretty, Ident.pretty, identV, writeArgs, spacedArgs, Argument.prettyList]

/-- C3.  An array prints as the items joined by a comma and a space between
parentheses, and the trailing comma appears exactly when the array has one
item. -/
theorem array_printing_trailing_comma (ryu : F64 → String) (sp : Span) (items : List Expr) :
    ExprArray.pretty ryu (.mk sp items) =
      "(" ++ String.intercalate ", " (items.map (Expr.pretty ryu)) ++
        (if items.length = 1 then "," else "") ++ ")" ∧
    ((if items.length = 1 then "," else "") = "," ↔ items.length = 1) := by
  constructor
  · simp only [ExprArray.pretty]
    rw [joinSep_eq_intercalate, prettyList_eq_map_expr]
  · by_cases h : items.length = 1 <;> simp [h]

/-- C4, counterexample.  A bracketed call with the two arguments `a` and
`b` prints them joined by a comma and a space, `#[v a, b]`, not separated
by a single space as `#[v a b]`. -/
theorem bracketed_arguments_comma_joined :
    ExprCall.prettyBracketed ryuZero callVab false = "#[v a, b]" ∧
    "#[v a, b]" ≠ "#[v a b]" := by
  constructor
  · simp [callVab, identV, identA, identB, ExprCall.prettyBracketed, Expr.pretty,
      Ident.pretty, spacedArgs, Argument.prettyList, Argument.pretty, joinSep]
  · decide

/-- C4, amended.  In the bracketed call form the emitted arguments are
joined by a comma and a space, with a single space before the argument
list exactly when it is non-empty. -/
theorem write_args_spec (ryu : F64 → String) :
    writeArgs ryu [] = "" ∧
    (∀ items : List Argument, items ≠ [] →
      writeArgs ryu items =
        " " ++ String.intercalate ", " (items.map (Argument.pretty ryu))) := by
  constructor
  · simp [writeArgs, spacedArgs, Argument.prettyList]
  · intro items h
    cases items with
    | nil => exact absurd rfl h
    | cons a rest =>
      simp [writeArgs, spacedArgs, prettyList_eq_map_argument, joinSep_eq_intercalate]

/-- C4, witness: one argument gets one leading space and no comma. -/
theorem write_args_spec_witness :
    writeArgs ryuZero [Argument.pos (.ident identA)] = " a" := by
  rw [(write_args_spec ryuZero).2 [Argument.pos (.ident identA)] (by simp)]
  simp [Argument.pretty, Expr.pretty, Ident.pretty, identA]
  rfl

/-- C5.  Operators sharing a precedence rank share an associativity; rank
one is exactly the five assignment operators, all right-associative; the
six comparison operators share one rank and are all left-associative. -/
theorem operator_rank_determines_associativity :
    (∀ o₁ o₂ : BinOp, o₁.precedence = o₂.precedence → o₁.associativity = o₂.associativity) ∧
    (∀ o : BinOp, o.precedence = 1 ↔
      (o = .assign ∨ o = .addAssign ∨ o = .subAssign ∨ o = .mulAssign ∨ o = .divAssign)) ∧
    (∀ o : BinOp, o.precedence = 1 → o.associativity = .right) ∧
    (BinOp.eq.precedence = BinOp.neq.precedence ∧
      BinOp.neq.precedence = BinOp.lt.precedence ∧
      BinOp.lt.precedence = BinOp.leq.precedence ∧
      BinOp.leq.precedence = BinOp.gt.precedence ∧
      BinOp.gt.precedence = BinOp.geq.precedence) ∧
    (BinOp.eq.associativity = .left ∧ BinOp.neq.associativity = .left ∧
      BinOp.lt.associativity = .left ∧ BinOp.leq.associativity = .left ∧
      BinOp.gt.associativity = .left ∧ BinOp.geq.associativity = .left) := by
  decide

/-- C6.  An empty dictionary prints as `(:)`; a non-empty one prints the
name-colon-space-expression entries joined by a comma and a space between
plain parentheses, with no colon marker. -/
theorem dict_printing_spec (ryu : F64 → String) (sp : Span) :
    ExprDict.pretty ryu (.mk sp []) = "(:)" ∧
    (∀ items : List Named, items ≠ [] →
      ExprDict.pretty ryu (.mk sp items) =
        "(" ++ String.intercalate ", " (items.map (Named.pretty ryu)) ++ ")") ∧
    (∀ (name : Ident) (expr : Expr),
      Named.pretty ryu (.mk name expr) =
        Ident.pretty name ++ ": " ++ Expr.pretty ryu expr) := by
  refine ⟨?_, ?_, ?_⟩
  · simp [ExprDict.pretty]
  · intro items h
    cases items with
    | nil => exact absurd rfl h
    | cons n rest =>
      simp [ExprDict.pretty, prettyList_eq_map_named, joinSep_eq_intercalate]
  · intro name expr
    simp [Named.pretty]

/-- C6, witness: a one-entry dictionary. -/
theorem dict_printing_spec_witness :
    ExprDict.pretty ryuZero (.mk Span.zero [Named.mk identA (.ident identB)]) = "(a: b)" := by
  rw [(dict_printing_spec ryuZero Span.zero).2.1 _ (by simp)]
  simp [Named.pretty, Ident.pretty, Expr.pretty, identA, identB]
  rfl

/-- C7.  The unary lookup succeeds exactly on the three unary operator
tokens and the binary lookup exactly on the seventeen binary operator
tokens; every binary operator is reached from its one token, and a token
mapping to an operator is that operator's token, so the lookup restricted
to the seventeen operator tokens is a bijection onto the seventeen binary
operators.  Both lookups are total functions into `Option`, so a miss is
the value `none` and never an error. -/
theorem operator_lookup_total_bijection :
    (∀ t : Token, (UnOp.fromToken t).isSome ↔ (t = .plus ∨ t = .hyph ∨ t = .not)) ∧
    (∀ t : Token, (BinOp.fromToken t).isSome ↔
      t ∈ [Token.plus, .hyph, .star, .slash, .and, .or, .eqEq, .bangEq, .lt, .ltEq,
        .gt, .gtEq, .eq, .plusEq, .hyphEq, .starEq, .slashEq]) ∧
    (∀ o : BinOp, BinOp.fromToken o.token = some o) ∧
    (∀ (t : Token) (o : BinOp), BinOp.fromToken t = some o → t = o.token) := by
  decide

/-- C8.  Printed text depends only on the span-free structure: expressions
or trees with equal span erasures print identically. -/
theorem printing_ignores_spans (ryu : F64 → String) :
    (∀ e₁ e₂ : Expr, e₁.eraseSpans = e₂.eraseSpans →
      Expr.pretty ryu e₁ = Expr.pretty ryu e₂) ∧
    (∀ t₁ t₂ : Tree, Tree.eraseSpans t₁ = Tree.eraseSpans t₂ →
      Tree.pretty ryu t₁ = Tree.pretty ryu t₂) := by
  constructor
  · intro e₁ e₂ h
    rw [← pretty_eraseSpans_expr ryu e₁, h, pretty_eraseSpans_expr]
  · intro t₁ t₂ h
    rw [← pretty_eraseSpans_tree ryu t₁,
      show Node.eraseSpansList t₁ = Node.eraseSpansList t₂ from h, pretty_eraseSpans_tree]

/-- C8, witness: two `none` literals differing only in their spans print
the same text. -/
theorem printing_ignores_spans_witness :
    Expr.pretty ryuZero (.lit ⟨⟨0, 0⟩, .none⟩) = Expr.pretty ryuZero (.lit ⟨⟨3, 7⟩, .none⟩) :=
  (printing_ignores_spans ryuZero).1 _ _ (by simp [Expr.eraseSpans, Lit.eraseSpans])

/-- C9.  A tree prints as each node in sequence order, concatenated
directly with no separator: the empty tree prints nothing, a head node is
printed before the rest, and the whole is the plain join of the printed
nodes. -/
theorem tree_printing_concatenation (ryu : F64 → String) :
    Tree.pretty ryu ([] : Tree) = "" ∧
    (∀ (n : Node) (ns : Tree), Tree.pretty ryu (n :: ns) =
      Node.pretty ryu n ++ Tree.pretty ryu ns) ∧
    (∀ ns : Tree, Tree.pretty ryu ns = String.join (ns.map (Node.pretty ryu))) := by
  refine ⟨by simp [Tree.pretty], ?_, Tree.pretty_eq_join ryu⟩
  intro n ns
  simp [Tree.pretty]

/-- C10.  When the last argument of a bracketed call is a positional
template whose tree is exactly one call node, the printer closes the
argument bracket and renders that template through the bracketed call
renderer in non-chained mode, so the printed body opens with `#[` rather
than a plain `[`. -/
theorem trailing_single_call_template_body (ryu : F64 → String) (sp asp tsp : Span)
    (callee : Expr) (init : List Argument) (inner : ExprCall) :
    ExprCall.prettyBracketed ryu
        (.mk sp callee (.mk asp (init ++
          [Argument.pos (.template (.mk tsp [Node.expr (.call inner)]))]))) false =
      "#[" ++ Expr.pretty ryu callee ++
        (writeArgs ryu init ++ "]" ++ ExprCall.prettyBracketed ryu inner false) ∧
    (∃ rest : String, ExprCall.prettyBracketed ryu inner false = "#[" ++ rest) := by
  constructor
  · rw [ExprCall.prettyBracketed_body ryu sp asp callee _ _ false
      (by rw [List.getLast?_concat]), List.dropLast_concat]
    rw [ExprTemplate.pretty.eq_1]
    simp
  · exact ExprCall.prettyBracketed_false_opens ryu inner

end Typst
